import Mathlib

/-!
Verification of the document ingestion / indexing / retrieval pipeline:
shallow embedding of `backend/services/chunking_service.py`,
`backend/services/parsing_service.py`, `backend/services/vector_store_service.py`
and `backend/services/financial_standardization_service.py`, together with
proofs about the embedded definitions.

Python strings are modelled as Lean `String`; Python `dict` records become
structures whose optional keys are `Option` fields; Python `None`/falsy
arguments are modelled with `Option` plus explicit truthiness predicates.
External libraries (langchain splitters, pypinyin, pdfplumber, unstructured,
the vector stores themselves and the LLM client) are modelled as function
parameters or as event traces; the code of this repository is transcribed.
-/

/-! ## Python string primitives -/

/-- Whitespace characters recognised by Python `str.split()` / `str.strip()`
(the ASCII ones; the services only ever feed text through these). -/
def pyIsSpace (c : Char) : Bool :=
  c = ' ' || c = '\t' || c = '\n' || c = '\r' || c = '\x0b' || c = '\x0c'

/-- Helper for `pySplit`: split a character list on whitespace runs,
dropping empty pieces, accumulating the current (reversed) word. -/
def splitWsAux : List Char → List Char → List (List Char)
  | [], [] => []
  | [], acc => [acc.reverse]
  | c :: cs, acc =>
    if pyIsSpace c then
      match acc with
      | [] => splitWsAux cs []
      | _ :: _ => acc.reverse :: splitWsAux cs []
    else splitWsAux cs (c :: acc)

/-- Python `s.split()` (no separator): split on whitespace runs, no empties. -/
def pySplit (s : String) : List String :=
  (splitWsAux s.data []).map (fun l => String.mk l)

/-- Python `len(s.split())`, the word count used throughout the chunker. -/
def pyWordCount (s : String) : Nat :=
  (pySplit s).length

/-- Python `s.strip()`: drop leading and trailing whitespace. -/
def pyStrip (s : String) : String :=
  String.mk ((((s.data.dropWhile pyIsSpace).reverse).dropWhile pyIsSpace).reverse)

/-- Helper for `pySplitSep`: Python `s.split(sep)` with a non-empty separator,
on character lists. Splits at each non-overlapping occurrence of `sep`,
scanning left to right; empty pieces are kept. -/
def splitSepAux (s0 : Char) (srest : List Char) : List Char → List Char → List (List Char)
  | [], acc => [acc.reverse]
  | c :: cs, acc =>
    if (s0 :: srest).isPrefixOf (c :: cs) then
      acc.reverse :: splitSepAux s0 srest (cs.drop srest.length) []
    else
      splitSepAux s0 srest cs (c :: acc)
termination_by l _ => l.length
decreasing_by
  · simp only [List.length_cons]
    have := List.length_drop srest.length cs
    omega
  · simp only [List.length_cons]
    omega

/-- Python `s.split(sep)` for a non-empty separator string. -/
def pySplitSep (s : String) (sep : String) : List String :=
  match sep.data with
  | [] => [s]
  | c :: cs => (splitSepAux c cs s.data []).map (fun l => String.mk l)

/-! ## Chunking service data model (`chunking_service.py`) -/

/-- One entry of a PageMap: `{page: int, text: string}` (the `metadata` map of
an entry is never read by the chunker). -/
structure PageData where
  page : Int
  text : String
deriving DecidableEq, Repr

/-- Metadata dict attached to a chunk. Optional fields model the presence or
absence of the corresponding dict key; `headers` models the header-level
entries spliced in by the markdown strategy. -/
structure ChunkMeta where
  chunk_id : Nat
  page_number : Option Int
  page_range : Option String
  headers : List (String × String)
  word_count : Nat
deriving DecidableEq, Repr

/-- `{content, metadata}` record emitted by every chunking strategy. -/
structure Chunk where
  content : String
  metadata : ChunkMeta
deriving DecidableEq, Repr

/-- Document metadata dict consumed by the chunker (`metadata.get(..., "")`). -/
structure DocMeta where
  filename : Option String
  loading_method : Option String
deriving DecidableEq, Repr

/-- The `document_data` dict returned by `chunk_text`. -/
structure ChunkedDocument where
  filename : String
  total_chunks : Nat
  total_pages : Nat
  loading_method : String
  chunking_method : String
  chunk_size : Int
  chunk_overlap : Int
  timestamp : String
  chunks : List Chunk
deriving DecidableEq, Repr

/-- Python truthiness of the `page_map` argument: `None` and `[]` are falsy. -/
def pyTruthyPages (pm : Option (List PageData)) : Bool :=
  match pm with
  | none => false
  | some l => !l.isEmpty

/-- `_chunk_by_pages`: one chunk per page, `chunk_id = len(chunks) + 1`. -/
def chunkByPages (page_map : List PageData) : List Chunk :=
  page_map.foldl
    (fun chunks p =>
      chunks ++ [⟨p.text,
        ⟨chunks.length + 1, some p.page, some (toString p.page), [],
         pyWordCount p.text⟩⟩])
    []

/-- Inner loop of `_chunk_by_separator` for one page: the page text is split
on the separator, each piece stripped, empty pieces dropped, and each
surviving piece appended with `chunk_id = len(chunks) + 1`. -/
def chunkBySeparatorPage (sep : String) (chunks : List Chunk) (p : PageData) : List Chunk :=
  (((pySplitSep p.text sep).map pyStrip).filter (fun s => s ≠ "")).foldl
    (fun chunks para =>
      chunks ++ [⟨para,
        ⟨chunks.length + 1, some p.page, some (toString p.page), [],
         pyWordCount para⟩⟩])
    chunks

/-- `_chunk_by_separator`. -/
def chunkBySeparator (page_map : List PageData) (sep : String) : List Chunk :=
  page_map.foldl (chunkBySeparatorPage sep) []

/-- Inner loop of `_apply_splitter` for one page: pieces whose strip is
non-empty are appended, content stripped, `word_count` computed on the
unstripped piece. -/
def applySplitterPage (split : String → List String) (chunks : List Chunk) (p : PageData) : List Chunk :=
  (split p.text).foldl
    (fun chunks t =>
      if pyStrip t ≠ "" then
        chunks ++ [⟨pyStrip t,
          ⟨chunks.length + 1, some p.page, some (toString p.page), [],
           pyWordCount t⟩⟩]
      else chunks)
    chunks

/-- `_apply_splitter`, parameterised by the (external) langchain splitter's
`split_text`, modelled as an arbitrary function `String → List String`. -/
def applySplitter (page_map : List PageData) (split : String → List String) : List Chunk :=
  page_map.foldl (applySplitterPage split) []

/-- One piece returned by the external `MarkdownHeaderTextSplitter`:
`page_content` plus the header metadata dict. -/
structure MdSplit where
  page_content : String
  headers : List (String × String)
deriving DecidableEq, Repr

/-- `_chunk_markdown`, parameterised by the external markdown splitter.
Chunks are numbered by `enumerate(md_header_splits, 1)`; the metadata dict is
`{chunk_id, **split.metadata, word_count}` — no page fields. -/
def mdChunksFrom (n : Nat) : List MdSplit → List Chunk
  | [] => []
  | s :: rest =>
    ⟨s.page_content, ⟨n + 1, none, none, s.headers, pyWordCount s.page_content⟩⟩ ::
      mdChunksFrom (n + 1) rest

/-- `_chunk_markdown` proper. -/
def chunkMarkdown (mdSplit : String → List MdSplit) (text : String) : List Chunk :=
  mdChunksFrom 0 (mdSplit text)

/-- The external langchain splitters used by `chunk_text`, as parameters:
`CharacterTextSplitter(separator=" ", ...)`, `RecursiveCharacterTextSplitter`
(taking the separator list), `TokenTextSplitter`, `MarkdownHeaderTextSplitter`. -/
structure Splitters where
  fixedSize : Int → Int → String → List String
  recursive : Int → Int → List String → String → List String
  token : Int → Int → String → List String
  markdown : String → List MdSplit

/-- The strategy dispatch of `chunk_text` (its `if/elif` chain), producing
the chunk list or the unsupported-method error. -/
def chunksFor (sp : Splitters) (text method : String) (pm : List PageData)
    (chunk_size chunk_overlap : Int) : Except String (List Chunk) :=
  if method = "by_pages" then .ok (chunkByPages pm)
  else if method = "fixed_size" then
    .ok (applySplitter pm (sp.fixedSize chunk_size chunk_overlap))
  else if method = "by_paragraphs" then .ok (chunkBySeparator pm "\n\n")
  else if method = "by_sentences" then
    .ok (applySplitter pm (sp.recursive chunk_size chunk_overlap [". ", "! ", "? ", "\n"]))
  else if method = "recursive" then
    .ok (applySplitter pm (sp.recursive chunk_size chunk_overlap ["\n\n", "\n", " ", ""]))
  else if method = "markdown" then .ok (chunkMarkdown sp.markdown text)
  else if method = "token" then
    .ok (applySplitter pm (sp.token chunk_size chunk_overlap))
  else .error ("Unsupported chunking method: " ++ method)

/-- `ChunkingService.chunk_text`. Raising becomes `Except.error`; the
`datetime.now().isoformat()` timestamp is a parameter. -/
def chunk_text (sp : Splitters) (text : String) (method : String) (metadata : DocMeta)
    (page_map : Option (List PageData)) (chunk_size : Int) (chunk_overlap : Int)
    (timestamp : String) : Except String ChunkedDocument :=
  if !pyTruthyPages page_map && method ≠ "markdown" then
    .error "Page map is required for non-markdown chunking."
  else
    match chunksFor sp text method (page_map.getD []) chunk_size chunk_overlap with
    | .error e => .error e
    | .ok chunks =>
        .ok { filename := metadata.filename.getD ""
              total_chunks := chunks.length
              total_pages := if pyTruthyPages page_map then (page_map.getD []).length else 0
              loading_method := metadata.loading_method.getD ""
              chunking_method := method
              chunk_size := chunk_size
              chunk_overlap := chunk_overlap
              timestamp := timestamp
              chunks := chunks }

/-! ## Invariant vocabulary for chunk lists -/

/-- `chunk_id` values of `l` are `n+1, n+2, …` in emission order. -/
def idsFrom (n : Nat) (l : List Chunk) : Prop :=
  ∀ i (h : i < l.length), (l.get ⟨i, h⟩).metadata.chunk_id = n + i + 1

/-- Every chunk's `word_count` is the whitespace-token count of its content. -/
def wcOk (l : List Chunk) : Prop :=
  ∀ c ∈ l, c.metadata.word_count = pyWordCount c.content

/-- Every chunk's metadata carries the page fields. -/
def pagesOk (l : List Chunk) : Prop :=
  ∀ c ∈ l, (c.metadata.page_number).isSome ∧ (c.metadata.page_range).isSome

/-! ## Parsing service (`parsing_service.py`) -/

/-- An element emitted by a parsing strategy. `title` is present only for
`by_titles` sections; `mdata` mirrors the per-element `metadata` dict (absent
for sections, whose dict has no `metadata` key). -/
structure ParsedElement where
  type : String
  content : String
  page : Int
  title : Option String
  mdata : Option (List (String × String))
deriving DecidableEq, Repr

/-- A PageMap entry as read by the parser: `{page, text, metadata}`. -/
structure ParsePage where
  page : Int
  text : String
  mdata : List (String × String)
deriving DecidableEq, Repr

/-- The `document_data` dict returned by `parse_file`. -/
structure ParsedDocument where
  filename : String
  total_pages : Nat
  parsing_method : String
  timestamp : String
  content : List ParsedElement
deriving DecidableEq, Repr

/-- Python truthiness of the parser's `page_map` argument. -/
def pyTruthyParsePages (pm : Option (List ParsePage)) : Bool :=
  match pm with
  | none => false
  | some l => !l.isEmpty

/-- Python truthiness of the `file_path` argument (`None` and `""` falsy). -/
def pyTruthyPath (fp : Option String) : Bool :=
  match fp with
  | none => false
  | some s => s ≠ ""

/-- `_parse_all_text`. -/
def parseAllText (page_map : List ParsePage) : List ParsedElement :=
  page_map.map (fun p => ⟨"Text", p.text, p.page, none, some p.mdata⟩)

/-- `_parse_by_pages`. -/
def parseByPages (page_map : List ParsePage) : List ParsedElement :=
  page_map.map (fun p => ⟨"Page", p.text, p.page, none, some p.mdata⟩)

/-- Python `str.isupper()` (ASCII model): at least one cased character and
no cased character is lowercase. -/
def pyIsUpper (s : String) : Bool :=
  s.data.any Char.isAlpha && s.data.all (fun c => !c.isAlpha || c.isUpper)

/-- The title heuristic of `_parse_by_titles`, applied to an already stripped,
non-empty line: `len(line) < 100 and (line.isupper() or line[0].isdigit())`. -/
def isTitleLine (line : String) : Bool :=
  line.length < 100 &&
    (pyIsUpper line ||
      (match line.data with
       | c :: _ => c.isDigit
       | [] => false))

/-- Accumulator of the `_parse_by_titles` loop: current title, accumulated
body lines (in order), sections emitted so far. -/
structure TitleAcc where
  title : String
  curr : List String
  out : List ParsedElement
deriving Repr

/-- A section dict `{type: "section", title, content, page}`. -/
def mkSection (title : String) (body : List String) (page : Int) : ParsedElement :=
  ⟨"section", String.intercalate "\n" body, page, some title, none⟩

/-- One iteration of the inner loop of `_parse_by_titles` on a raw line of
the page numbered `pageNum`. -/
def titleStep (pageNum : Int) (st : TitleAcc) (line0 : String) : TitleAcc :=
  let line := pyStrip line0
  if line = "" then st
  else if isTitleLine line then
    { title := line
      curr := []
      out := if st.curr ≠ [] then st.out ++ [mkSection st.title st.curr pageNum] else st.out }
  else { st with curr := st.curr ++ [line] }

/-- `page_map[-1]["page"] if page_map else 0`. -/
def lastPageNum (page_map : List ParsePage) : Int :=
  match page_map.getLast? with
  | some p => p.page
  | none => 0

/-- `_parse_by_titles`. -/
def parseByTitles (page_map : List ParsePage) : List ParsedElement :=
  let st := page_map.foldl
    (fun st p => (pySplitSep p.text "\n").foldl (titleStep p.page) st)
    ⟨"Introduction", [], []⟩
  if st.curr ≠ [] then st.out ++ [mkSection st.title st.curr (lastPageNum page_map)]
  else st.out

/-- The strategy dispatch (`if/elif` chain) of `ParsingService.parse_file`.
The two file-based strategies delegate entirely to external extractors
(`pdfplumber`, `unstructured`), modelled as function parameters from the
file path to the produced elements. -/
def parseContentFor (pdfplumberParse : String → List ParsedElement)
    (unstructuredParse : String → List ParsedElement) (method : String)
    (page_map : Option (List ParsePage)) (file_path : Option String) :
    Except String (List ParsedElement) :=
  if method = "all_text" && pyTruthyParsePages page_map then
    .ok (parseAllText (page_map.getD []))
  else if method = "by_pages" && pyTruthyParsePages page_map then
    .ok (parseByPages (page_map.getD []))
  else if method = "by_titles" && pyTruthyParsePages page_map then
    .ok (parseByTitles (page_map.getD []))
  else if method = "text_and_tables" && pyTruthyPath file_path then
    .ok (pdfplumberParse (file_path.getD ""))
  else if method = "hi_res" && pyTruthyPath file_path then
    .ok (unstructuredParse (file_path.getD ""))
  else if pyTruthyParsePages page_map then
    .ok (parseByPages (page_map.getD []))
  else
    .error ("Unsupported parsing method: " ++ method ++ " or missing required data.")

/-- `ParsingService.parse_file`; raising becomes `Except.error` and the
timestamp is a parameter. -/
def parse_file (pdfplumberParse : String → List ParsedElement)
    (unstructuredParse : String → List ParsedElement)
    (_text : String) (method : String) (metadata : DocMeta)
    (page_map : Option (List ParsePage)) (file_path : Option String)
    (timestamp : String) : Except String ParsedDocument :=
  match parseContentFor pdfplumberParse unstructuredParse method page_map file_path with
  | .error e => .error e
  | .ok content =>
      .ok { filename := metadata.filename.getD ""
            total_pages := if pyTruthyParsePages page_map then (page_map.getD []).length else 0
            parsing_method := method
            timestamp := timestamp
            content := content }

/-! ### Single-pass reformulation of `by_titles` (for its characterization) -/

/-- The stripped non-empty lines of each page, flattened in order, each
tagged with its page number. -/
def titleLines (page_map : List ParsePage) : List (Int × String) :=
  page_map.flatMap (fun p =>
    (((pySplitSep p.text "\n").map pyStrip).filter (fun l => l ≠ "")).map
      (fun l => (p.page, l)))

/-- One step of the single-pass description: the line is already stripped
and non-empty. -/
def titleSpecStep (st : TitleAcc) (pl : Int × String) : TitleAcc :=
  if isTitleLine pl.2 then
    { title := pl.2
      curr := []
      out := if st.curr ≠ [] then st.out ++ [mkSection st.title st.curr pl.1] else st.out }
  else { st with curr := st.curr ++ [pl.2] }

/-- The claim's description of `by_titles`: a single pass over the stripped
non-empty lines of every page, followed by a flush of the remaining body
lines tagged with the last page's number. -/
def parseByTitlesSpec (page_map : List ParsePage) : List ParsedElement :=
  let st := (titleLines page_map).foldl titleSpecStep ⟨"Introduction", [], []⟩
  if st.curr ≠ [] then st.out ++ [mkSection st.title st.curr (lastPageNum page_map)]
  else st.out

/-! ## Vector store service (`vector_store_service.py`) -/

/-- Python `filename.replace('.pdf', '')`: every non-overlapping occurrence
of `.pdf` is removed in one left-to-right scan. -/
def stripPdfChars : List Char → List Char
  | '.' :: 'p' :: 'd' :: 'f' :: rest => stripPdfChars rest
  | c :: rest => c :: stripPdfChars rest
  | [] => []

/-- `filename.replace('.pdf', '')` on strings. -/
def stripPdf (s : String) : String :=
  String.mk (stripPdfChars s.data)

/-- Python `'.pdf' in s` on character lists. -/
def containsPdf : List Char → Bool
  | '.' :: 'p' :: 'd' :: 'f' :: _ => true
  | _ :: rest => containsPdf rest
  | [] => false

/-- Python `s.endswith('.pdf')`. -/
def endsWithPdf (s : String) : Bool :=
  ([ '.', 'p', 'd', 'f' ] : List Char).isSuffixOf s.data

/-- Step 1 of collection naming, identical in `_index_to_milvus` (line 172)
and `_index_to_chroma` (line 338):
`base_name = filename.replace('.pdf', '') if filename else "doc"`. -/
def baseNameStep1 (filename : String) : String :=
  if filename = "" then "doc" else stripPdf filename

/-- ASCII model of Python `c.isalnum()` (`[0-9A-Za-z]`; agreement with Python
is exact on ASCII characters). -/
def pyIsAlnum (c : Char) : Bool :=
  c.isAlphanum

/-- Characters admitted by the clean-up filter: alphanumeric, `_`, `-`. -/
def isNameChar (c : Char) : Bool :=
  pyIsAlnum c || c = '_' || c = '-'

/-- Step 3: `base_name.replace('-', '_')`. -/
def nameHyphenStep (l : List Char) : List Char :=
  l.map (fun c => if c = '-' then '_' else c)

/-- Step 4: `doc_` prefix when the first character is not alphanumeric
(the empty case never reaches this step — `base_name[0]` raises first). -/
def namePrefixStep (l : List Char) : List Char :=
  match l with
  | [] => []
  | c0 :: _ => if !pyIsAlnum c0 then ('d' :: 'o' :: 'c' :: '_' :: l) else l

/-- Step 5: drop every character that is not alphanumeric, `_` or `-`. -/
def nameFilterStep (l : List Char) : List Char :=
  l.filter isNameChar

/-- Step 6: pad with `___` to a 3-character minimum (then `[:63]`), else
truncate to 63 characters. -/
def namePadTruncate (l : List Char) : List Char :=
  if l.length < 3 then (l ++ ['_', '_', '_']).take 63
  else if l.length > 63 then l.take 63
  else l

/-- Step 7: strip trailing, then leading, non-alphanumeric characters. -/
def nameStripEnds (l : List Char) : List Char :=
  ((l.reverse.dropWhile (fun c => !pyIsAlnum c)).reverse).dropWhile (fun c => !pyIsAlnum c)

/-- Steps 3–7 of collection naming, applied to the transliterated base name
(both providers, lines 177–201 / 343–367): replace hyphens, `doc_`-prefix a
non-alphanumeric start, filter invalid characters, pad to 3 / truncate to 63,
then strip trailing and leading non-alphanumerics. `none` models the
`IndexError` that `base_name[0]` raises on an empty string. -/
def finishBaseName (base1 : String) : Option String :=
  match nameHyphenStep base1.data with
  | [] => none
  | c0 :: cs =>
      some (String.mk (nameStripEnds (namePadTruncate (nameFilterStep
        (namePrefixStep (c0 :: cs))))))

/-- Full collection-name derivation for one indexing call, parameterised by
the external transliteration (`pypinyin.lazy_pinyin` composed with `join`):
steps 1–8. The timestamp (`datetime.now().strftime("%Y%m%d%H%M%S")`) is a
parameter. -/
def deriveCollectionName (translit : String → String) (filename : String)
    (embedding_provider : String) (timestamp : String) : Option String :=
  (finishBaseName (translit (baseNameStep1 filename))).map
    (fun base => base ++ "_" ++ embedding_provider ++ "_" ++ timestamp)

/-- The first character exists and is alphanumeric. -/
def firstAlnum (l : List Char) : Bool :=
  match l.head? with
  | some c => pyIsAlnum c
  | none => false

/-- The last character exists and is alphanumeric. -/
def lastAlnum (l : List Char) : Bool :=
  match l.getLast? with
  | some c => pyIsAlnum c
  | none => false

/-- The spec's collection-name pattern
`^[A-Za-z0-9][A-Za-z0-9_-]{1,61}[A-Za-z0-9]$` together with the 3–63 length
bound (for ASCII strings the pattern itself already forces the bound). -/
def matchesNamePattern (s : String) : Prop :=
  3 ≤ s.data.length ∧ s.data.length ≤ 63 ∧
    (∀ c ∈ s.data, isNameChar c = true) ∧
    firstAlnum s.data = true ∧ lastAlnum s.data = true

/-- The same shape with the 63-character upper bound dropped: what the code
actually guarantees for the full name. -/
def matchesNamePatternNoCap (s : String) : Prop :=
  3 ≤ s.data.length ∧
    (∀ c ∈ s.data, isNameChar c = true) ∧
    firstAlnum s.data = true ∧ lastAlnum s.data = true

/-- The embedding-file JSON, as consumed by the two indexers. Optional
fields model key presence; per-record chunk metadata is omitted because no
branch of either indexer depends on it (records are copied field-by-field
into entities). Vector components are modelled as rationals. -/
structure EmbeddingsData where
  filename : Option String
  embedding_provider : Option String
  embedding_model : Option String
  vector_dimension : Option Int
  embeddings : List (List Rat)
deriving DecidableEq, Repr

/-- Interactions with a vector store performed by an indexing call, in
order. Milvus events on the left, Chroma events on the right; `disconnect`
models the `finally: connections.disconnect("default")`. -/
inductive StoreEvent where
  | connect
  | createCollection (name : String)
  | insert (count : Nat)
  | flush
  | createIndex
  | load
  | disconnect
  | chromaInit (name : String)
  | addTexts (count : Nat)
  | persist
deriving DecidableEq, Repr

/-- Result dict of a successful `_index_to_milvus` / `_index_to_chroma`. -/
structure IndexResult where
  index_size : Nat
  collection_name : String
deriving DecidableEq, Repr

/-- `_index_to_milvus`, as the ordered trace of store interactions plus the
outcome. Name derivation (pure) precedes `connections.connect`; the
`vector_dimension` read `int(embeddings_data.get("vector_dimension"))`
happens only after connecting, raising `TypeError` when the key is missing
(so the guarded `ValueError` is reachable only for a present falsy value);
entity preparation is pure; then create / insert / flush / create_index /
load. The `finally` block always appends `disconnect`. -/
def indexToMilvus (translit : String → String) (data : EmbeddingsData)
    (timestamp : String) : List StoreEvent × Except String IndexResult :=
  match deriveCollectionName translit (data.filename.getD "")
      (data.embedding_provider.getD "unknown") timestamp with
  | none => ([.disconnect], .error "IndexError: string index out of range")
  | some collection_name =>
    match data.vector_dimension with
    | none =>
        ([.connect, .disconnect],
         .error "TypeError: int() argument must not be NoneType")
    | some dim =>
        if dim = 0 then
          ([.connect, .disconnect], .error "Missing vector_dimension in embedding file")
        else
          ([.connect, .createCollection collection_name,
            .insert data.embeddings.length, .flush, .createIndex, .load, .disconnect],
           .ok ⟨data.embeddings.length, collection_name⟩)

/-- `_index_to_chroma`: same name derivation; `vector_dimension` of the file
is never read — the dimension is `len(embeddings[0]) if embeddings else 0`,
and a zero dimension raises before the Chroma client is created; otherwise
the collection is created, the batch added and persisted. -/
def indexToChroma (translit : String → String) (data : EmbeddingsData)
    (timestamp : String) : List StoreEvent × Except String IndexResult :=
  match deriveCollectionName translit (data.filename.getD "")
      (data.embedding_provider.getD "unknown") timestamp with
  | none => ([], .error "IndexError: string index out of range")
  | some collection_name =>
    if (match data.embeddings with
        | [] => 0
        | v :: _ => v.length) = 0 then
      ([], .error "No embeddings found or embeddings have zero dimension")
    else
      ([.chromaInit collection_name, .addTexts data.embeddings.length, .persist],
       .ok ⟨data.embeddings.length, collection_name⟩)

/-! ## Streaming explanation (`financial_standardization_service.py`) -/

/-- A similarity-search candidate `{term, category, distance}`. -/
structure Candidate where
  term : String
  category : String
  distance : Rat
deriving DecidableEq, Repr

/-- One item arriving from the streamed generative completion: a chunk whose
`delta.content` may be `None`, or an exception raised at that point (the
failure of `create` itself is a `fail` before any chunk). -/
inductive GenItem where
  | chunk (content : Option String)
  | fail (msg : String)
deriving DecidableEq, Repr

/-- An event emitted by `search_and_explain_stream`: the single
`DATA: {"candidates": ...}` line, a raw text fragment, or the final
`ERROR: ...` line. -/
inductive StreamEvent where
  | data (candidates : List Candidate)
  | text (s : String)
  | error (msg : String)
deriving DecidableEq, Repr

/-- Python truthiness of an optional string (`None` and `""` falsy). -/
def pyTruthyStr (o : Option String) : Bool :=
  match o with
  | none => false
  | some s => s ≠ ""

/-- The generation loop: each chunk with truthy `delta.content` is yielded;
an exception ends the generator with a single final `ERROR` event. -/
def processGen : List GenItem → List StreamEvent
  | [] => []
  | .chunk c :: rest =>
      if pyTruthyStr c then .text (c.getD "") :: processGen rest else processGen rest
  | .fail msg :: _ => [.error msg]

/-- `search_and_explain_stream`, as the full emitted event sequence. The
API key resolution (`api_key or os.getenv("DEEPSEEK_API_KEY")`, both by
Python truthiness) precedes everything; a missing key raises `ValueError`,
caught by the enclosing handler which emits the single `ERROR` event. The
vector search never raises (its errors are swallowed to `[]`), so the
candidate list is an input; prompt assembly is pure. -/
def searchAndExplainStream (api_key : Option String) (envKey : Option String)
    (candidates : List Candidate) (gen : List GenItem) : List StreamEvent :=
  if !pyTruthyStr api_key && !pyTruthyStr envKey then
    [.error "DeepSeek API key not provided"]
  else
    .data candidates :: processGen gen

/-- The text fragments the claim expects: truthy contents of the chunks that
arrive strictly before the first failure, in arrival order. -/
def expectedTexts (gen : List GenItem) : List String :=
  (gen.takeWhile (fun i => match i with | .fail _ => false | _ => true)).filterMap
    (fun i => match i with
      | .chunk (some s) => if s ≠ "" then some s else none
      | _ => none)

/-- The first failure message of the incoming stream, if any. -/
def firstFail : List GenItem → Option String
  | [] => none
  | .chunk _ :: rest => firstFail rest
  | .fail msg :: _ => some msg

/-- Event-class discriminators. -/
def isDataEvent : StreamEvent → Bool
  | .data _ => true
  | _ => false

def isTextEvent : StreamEvent → Bool
  | .text _ => true
  | _ => false

def isErrorEvent : StreamEvent → Bool
  | .error _ => true
  | _ => false

def textOf : StreamEvent → Option String
  | .text s => some s
  | _ => none

/-! ## Concrete instances used to exercise the definitions -/

/-- A concrete stand-in for the external langchain splitters: each splitter
returns its input whole; the markdown splitter yields one titled piece. -/
def exSplitters : Splitters where
  fixedSize := fun _ _ s => [s]
  recursive := fun _ _ _ s => [s]
  token := fun _ _ s => [s]
  markdown := fun _ => [⟨"hello world", [("Header 1", "T")]⟩]

/-- A 70-character ASCII filename (pypinyin transliterates ASCII text to
itself, so `id` is the transliteration on this input). -/
def longAName : String :=
  String.mk (List.replicate 70 'a')

/-- An embedding file whose JSON lacks the `vector_dimension` key but holds
one two-component embedding record. -/
def exNoDimData : EmbeddingsData where
  filename := some "report.pdf"
  embedding_provider := some "openai"
  embedding_model := some "text-embedding-3-small"
  vector_dimension := none
  embeddings := [[1, 2]]

/-- Characterization helper for `by_pages` chunking: the chunks produced
when `len(chunks)` starts at `n`. -/
def pageChunksFrom (n : Nat) : List PageData → List Chunk
  | [] => []
  | p :: rest =>
    ⟨p.text, ⟨n + 1, some p.page, some (toString p.page), [], pyWordCount p.text⟩⟩ ::
      pageChunksFrom (n + 1) rest

/-! # Theorems -/

/-! ## Whitespace splitting is invariant under stripping -/

theorem splitWsAux_dropWhile (l : List Char) :
    splitWsAux (l.dropWhile pyIsSpace) [] = splitWsAux l [] := by
  induction l with
  | nil => rfl
  | cons c cs ih =>
      by_cases h : pyIsSpace c
      · simpa [splitWsAux, List.dropWhile_cons, h] using ih
      · simp [splitWsAux, List.dropWhile_cons, h]

theorem splitWsAux_ws_only (t : List Char) (ht : ∀ c ∈ t, pyIsSpace c) (acc : List Char) :
    splitWsAux t acc = splitWsAux [] acc := by
  induction t generalizing acc with
  | nil => rfl
  | cons c cs ih =>
      have hc : pyIsSpace c := ht c (by simp)
      have hcs : ∀ c ∈ cs, pyIsSpace c := fun x hx => ht x (by simp [hx])
      cases acc with
      | nil => simp [splitWsAux, hc, ih hcs []]
      | cons a as => simp [splitWsAux, hc, ih hcs []]

theorem splitWsAux_append_ws (l t : List Char) (ht : ∀ c ∈ t, pyIsSpace c) (acc : List Char) :
    splitWsAux (l ++ t) acc = splitWsAux l acc := by
  induction l generalizing acc with
  | nil =>
      simpa using splitWsAux_ws_only t ht acc
  | cons c cs ih =>
      by_cases h : pyIsSpace c
      · cases acc with
        | nil => simp [splitWsAux, h, ih]
        | cons a as => simp [splitWsAux, h, ih]
      · simp [splitWsAux, h, ih]

theorem strip_decomposition (l1 : List Char) :
    ∃ t, l1 = ((l1.reverse.dropWhile pyIsSpace).reverse) ++ t ∧ ∀ c ∈ t, pyIsSpace c := by
  refine ⟨(l1.reverse.takeWhile pyIsSpace).reverse, ?_, ?_⟩
  · calc l1 = l1.reverse.reverse := (List.reverse_reverse _).symm
      _ = ((l1.reverse.takeWhile pyIsSpace) ++ (l1.reverse.dropWhile pyIsSpace)).reverse := by
          rw [List.takeWhile_append_dropWhile]
      _ = (l1.reverse.dropWhile pyIsSpace).reverse ++ (l1.reverse.takeWhile pyIsSpace).reverse := by
          rw [List.reverse_append]
  · intro c hc
    rw [List.mem_reverse] at hc
    exact List.mem_takeWhile_imp hc

theorem pySplit_pyStrip (s : String) : pySplit (pyStrip s) = pySplit s := by
  unfold pySplit pyStrip
  obtain ⟨t, hdec, ht⟩ := strip_decomposition (s.data.dropWhile pyIsSpace)
  have h1 : splitWsAux s.data []
      = splitWsAux ((((s.data.dropWhile pyIsSpace).reverse.dropWhile pyIsSpace)).reverse) [] := by
    calc splitWsAux s.data []
        = splitWsAux (s.data.dropWhile pyIsSpace) [] := (splitWsAux_dropWhile s.data).symm
      _ = splitWsAux ((((s.data.dropWhile pyIsSpace).reverse.dropWhile pyIsSpace)).reverse ++ t) [] := by
          rw [← hdec]
      _ = splitWsAux ((((s.data.dropWhile pyIsSpace).reverse.dropWhile pyIsSpace)).reverse) [] :=
          splitWsAux_append_ws _ t ht []
  rw [show (String.mk ((((s.data.dropWhile pyIsSpace).reverse).dropWhile pyIsSpace).reverse)).data
      = (((s.data.dropWhile pyIsSpace).reverse).dropWhile pyIsSpace).reverse from rfl]
  rw [← h1]

theorem pyWordCount_pyStrip (s : String) : pyWordCount (pyStrip s) = pyWordCount s := by
  unfold pyWordCount
  rw [pySplit_pyStrip]

/-! ## Chunk-list invariants are preserved by every strategy -/

theorem idsFrom_nil (n : Nat) : idsFrom n [] := by
  intro i h
  simp at h

theorem idsFrom_snoc {n : Nat} {l : List Chunk} {c : Chunk} (h1 : idsFrom n l)
    (hc : c.metadata.chunk_id = n + l.length + 1) : idsFrom n (l ++ [c]) := by
  intro i hi
  simp only [List.get_eq_getElem]
  rcases Nat.lt_or_ge i l.length with h | h
  · rw [List.getElem_append_left h]
    have := h1 i h
    simpa [List.get_eq_getElem] using this
  · have hlen : i < l.length + 1 := by simpa using hi
    have hieq : i = l.length := by omega
    subst hieq
    rw [List.getElem_append_right (Nat.le_refl _)]
    simpa using hc

theorem wcOk_nil : wcOk [] := by
  intro c hc
  simp at hc

theorem wcOk_snoc {l : List Chunk} {c : Chunk} (h1 : wcOk l)
    (hc : c.metadata.word_count = pyWordCount c.content) : wcOk (l ++ [c]) := by
  intro x hx
  rcases List.mem_append.mp hx with h | h
  · exact h1 x h
  · simp at h
    subst h
    exact hc

theorem pagesOk_nil : pagesOk [] := by
  intro c hc
  simp at hc

theorem pagesOk_snoc {l : List Chunk} {c : Chunk} (h1 : pagesOk l)
    (hc : (c.metadata.page_number).isSome ∧ (c.metadata.page_range).isSome) :
    pagesOk (l ++ [c]) := by
  intro x hx
  rcases List.mem_append.mp hx with h | h
  · exact h1 x h
  · simp at h
    subst h
    exact hc

theorem foldl_preserve {α : Type} (P : List Chunk → Prop) (f : List Chunk → α → List Chunk)
    (hf : ∀ acc x, P acc → P (f acc x)) :
    ∀ (l : List α) (acc : List Chunk), P acc → P (l.foldl f acc) := by
  intro l
  induction l with
  | nil => intro acc h; exact h
  | cons x xs ih => intro acc h; exact ih _ (hf acc x h)

theorem chunkByPages_inv (pm : List PageData) :
    idsFrom 0 (chunkByPages pm) ∧ wcOk (chunkByPages pm) ∧ pagesOk (chunkByPages pm) := by
  unfold chunkByPages
  refine foldl_preserve (fun L => idsFrom 0 L ∧ wcOk L ∧ pagesOk L) _ ?_ pm []
    ⟨idsFrom_nil 0, wcOk_nil, pagesOk_nil⟩
  rintro acc p ⟨h1, h2, h3⟩
  exact ⟨idsFrom_snoc h1 (by simp), wcOk_snoc h2 rfl, pagesOk_snoc h3 (by simp)⟩

theorem chunkBySeparatorPage_inv (sep : String) (acc : List Chunk) (p : PageData)
    (h : idsFrom 0 acc ∧ wcOk acc ∧ pagesOk acc) :
    idsFrom 0 (chunkBySeparatorPage sep acc p) ∧ wcOk (chunkBySeparatorPage sep acc p)
      ∧ pagesOk (chunkBySeparatorPage sep acc p) := by
  unfold chunkBySeparatorPage
  refine foldl_preserve (fun L => idsFrom 0 L ∧ wcOk L ∧ pagesOk L) _ ?_ _ acc h
  rintro acc' para ⟨h1, h2, h3⟩
  exact ⟨idsFrom_snoc h1 (by simp), wcOk_snoc h2 rfl, pagesOk_snoc h3 (by simp)⟩

theorem chunkBySeparator_inv (pm : List PageData) (sep : String) :
    idsFrom 0 (chunkBySeparator pm sep) ∧ wcOk (chunkBySeparator pm sep)
      ∧ pagesOk (chunkBySeparator pm sep) := by
  unfold chunkBySeparator
  exact foldl_preserve (fun L => idsFrom 0 L ∧ wcOk L ∧ pagesOk L) _
    (fun acc p h => chunkBySeparatorPage_inv sep acc p h) pm []
    ⟨idsFrom_nil 0, wcOk_nil, pagesOk_nil⟩

theorem applySplitterPage_inv (split : String → List String) (acc : List Chunk) (p : PageData)
    (h : idsFrom 0 acc ∧ wcOk acc ∧ pagesOk acc) :
    idsFrom 0 (applySplitterPage split acc p) ∧ wcOk (applySplitterPage split acc p)
      ∧ pagesOk (applySplitterPage split acc p) := by
  unfold applySplitterPage
  refine foldl_preserve (fun L => idsFrom 0 L ∧ wcOk L ∧ pagesOk L) _ ?_ _ acc h
  rintro acc' t ⟨h1, h2, h3⟩
  by_cases ht : pyStrip t ≠ ""
  · rw [if_pos ht]
    exact ⟨idsFrom_snoc h1 (by simp),
      wcOk_snoc h2 (by simpa using (pyWordCount_pyStrip t).symm),
      pagesOk_snoc h3 (by simp)⟩
  · rw [if_neg ht]
    exact ⟨h1, h2, h3⟩

theorem applySplitter_inv (pm : List PageData) (split : String → List String) :
    idsFrom 0 (applySplitter pm split) ∧ wcOk (applySplitter pm split)
      ∧ pagesOk (applySplitter pm split) := by
  unfold applySplitter
  exact foldl_preserve (fun L => idsFrom 0 L ∧ wcOk L ∧ pagesOk L) _
    (fun acc p h => applySplitterPage_inv split acc p h) pm []
    ⟨idsFrom_nil 0, wcOk_nil, pagesOk_nil⟩

theorem mdChunksFrom_ids (l : List MdSplit) : ∀ n, idsFrom n (mdChunksFrom n l) := by
  induction l with
  | nil => intro n; exact idsFrom_nil n
  | cons s rest ih =>
      intro n i hi
      cases i with
      | zero =>
          show n + 1 = n + 0 + 1
          omega
      | succ j =>
          have hj : j < (mdChunksFrom (n + 1) rest).length := by
            simpa [mdChunksFrom] using hi
          have hthis := ih (n + 1) j hj
          simp only [List.get_eq_getElem] at hthis ⊢
          simp only [mdChunksFrom, List.getElem_cons_succ]
          rw [hthis]
          omega

theorem mdChunksFrom_wc (l : List MdSplit) (n : Nat) : wcOk (mdChunksFrom n l) := by
  induction l generalizing n with
  | nil => exact wcOk_nil
  | cons s rest ih =>
      intro c hc
      rcases List.mem_cons.mp hc with h | h
      · subst h; rfl
      · exact ih (n + 1) c h

theorem mdChunksFrom_pages_none (l : List MdSplit) (n : Nat) :
    ∀ c ∈ mdChunksFrom n l, c.metadata.page_number = none ∧ c.metadata.page_range = none := by
  induction l generalizing n with
  | nil => intro c hc; simp [mdChunksFrom] at hc
  | cons s rest ih =>
      intro c hc
      rcases List.mem_cons.mp hc with h | h
      · subst h; exact ⟨rfl, rfl⟩
      · exact ih (n + 1) c h

theorem chunksFor_inv (sp : Splitters) (text method : String) (pm : List PageData)
    (cs co : Int) (chunks : List Chunk)
    (h : chunksFor sp text method pm cs co = .ok chunks) :
    idsFrom 0 chunks ∧ wcOk chunks := by
  unfold chunksFor at h
  split_ifs at h <;> simp only [Except.ok.injEq] at h
  · exact h ▸ ⟨(chunkByPages_inv pm).1, (chunkByPages_inv pm).2.1⟩
  · exact h ▸ ⟨(applySplitter_inv pm _).1, (applySplitter_inv pm _).2.1⟩
  · exact h ▸ ⟨(chunkBySeparator_inv pm _).1, (chunkBySeparator_inv pm _).2.1⟩
  · exact h ▸ ⟨(applySplitter_inv pm _).1, (applySplitter_inv pm _).2.1⟩
  · exact h ▸ ⟨(applySplitter_inv pm _).1, (applySplitter_inv pm _).2.1⟩
  · exact h ▸ ⟨mdChunksFrom_ids _ 0, mdChunksFrom_wc _ 0⟩
  · exact h ▸ ⟨(applySplitter_inv pm _).1, (applySplitter_inv pm _).2.1⟩

theorem chunksFor_markdown (sp : Splitters) (text : String) (pm : List PageData)
    (cs co : Int) : chunksFor sp text "markdown" pm cs co
      = .ok (chunkMarkdown sp.markdown text) := by
  rfl

theorem chunksFor_pages (sp : Splitters) (text method : String) (pm : List PageData)
    (cs co : Int) (chunks : List Chunk)
    (h : chunksFor sp text method pm cs co = .ok chunks) (hm : method ≠ "markdown") :
    pagesOk chunks := by
  unfold chunksFor at h
  split_ifs at h <;> simp only [Except.ok.injEq] at h
  · exact h ▸ (chunkByPages_inv pm).2.2
  · exact h ▸ (applySplitter_inv pm _).2.2
  · exact h ▸ (chunkBySeparator_inv pm _).2.2
  · exact h ▸ (applySplitter_inv pm _).2.2
  · exact h ▸ (applySplitter_inv pm _).2.2
  · exact h ▸ (applySplitter_inv pm _).2.2

/-! ## Characterization of `by_pages` chunking -/

theorem pageChunksFrom_length (pm : List PageData) :
    ∀ n, (pageChunksFrom n pm).length = pm.length := by
  induction pm with
  | nil => intro n; rfl
  | cons p rest ih => intro n; simp [pageChunksFrom, ih (n + 1)]

theorem pageChunksFrom_get (pm : List PageData) :
    ∀ n i (h : i < (pageChunksFrom n pm).length) (h' : i < pm.length),
      (pageChunksFrom n pm).get ⟨i, h⟩
        = ⟨(pm.get ⟨i, h'⟩).text,
           ⟨n + i + 1, some (pm.get ⟨i, h'⟩).page, some (toString (pm.get ⟨i, h'⟩).page), [],
            pyWordCount (pm.get ⟨i, h'⟩).text⟩⟩ := by
  induction pm with
  | nil => intro n i h h'; simp at h'
  | cons p rest ih =>
      intro n i h h'
      cases i with
      | zero => rfl
      | succ j =>
          have hj : j < (pageChunksFrom (n + 1) rest).length := by
            simpa [pageChunksFrom] using h
          have hj' : j < rest.length := by simpa using h'
          have := ih (n + 1) j hj hj'
          simp only [List.get_eq_getElem] at this ⊢
          simp only [pageChunksFrom, List.getElem_cons_succ]
          rw [this]
          congr 2
          omega

theorem chunkByPages_aux (pm : List PageData) : ∀ (acc : List Chunk),
    pm.foldl
      (fun chunks p =>
        chunks ++ [⟨p.text,
          ⟨chunks.length + 1, some p.page, some (toString p.page), [],
           pyWordCount p.text⟩⟩]) acc
      = acc ++ pageChunksFrom acc.length pm := by
  induction pm with
  | nil => intro acc; simp [pageChunksFrom]
  | cons p rest ih =>
      intro acc
      simp only [List.foldl_cons]
      rw [ih]
      simp [pageChunksFrom, List.append_assoc]

theorem chunkByPages_eq (pm : List PageData) : chunkByPages pm = pageChunksFrom 0 pm := by
  unfold chunkByPages
  simpa using chunkByPages_aux pm []

theorem listGet_congr {l1 l2 : List Chunk} (h : l1 = l2) (i : Nat)
    (hi : i < l1.length) (hi2 : i < l2.length) : l1.get ⟨i, hi⟩ = l2.get ⟨i, hi2⟩ := by
  subst h
  rfl

/-! ## Claim C5 -/

/-- C5: for every successful `chunk_text` call (any of the seven strategies,
arbitrary external splitter behaviour), the emitted chunks carry `chunk_id`
exactly `1..N` in emission order, `total_chunks` equals `N`, and every
chunk's `word_count` is the whitespace-token count of its final content. -/
theorem c5_chunk_invariants (sp : Splitters) (text method : String) (meta : DocMeta)
    (page_map : Option (List PageData)) (cs co : Int) (ts : String) (doc : ChunkedDocument)
    (h : chunk_text sp text method meta page_map cs co ts = .ok doc) :
    (∀ i (hi : i < doc.chunks.length), (doc.chunks.get ⟨i, hi⟩).metadata.chunk_id = i + 1)
      ∧ doc.total_chunks = doc.chunks.length
      ∧ ∀ c ∈ doc.chunks, c.metadata.word_count = pyWordCount c.content := by
  unfold chunk_text at h
  split_ifs at h
  all_goals
    cases hE : chunksFor sp text method (page_map.getD []) cs co with
    | error e => rw [hE] at h; simp at h
    | ok chunks =>
        rw [hE] at h
        simp only [Except.ok.injEq] at h
        obtain ⟨h1, h2⟩ := chunksFor_inv sp text method (page_map.getD []) cs co chunks hE
        rw [← h]
        refine ⟨?_, rfl, ?_⟩
        · show ∀ i (hi : i < chunks.length), (chunks.get ⟨i, hi⟩).metadata.chunk_id = i + 1
          intro i hi
          have h3 := h1 i hi
          omega
        · show ∀ c ∈ chunks, c.metadata.word_count = pyWordCount c.content
          exact h2

/-- Witness for C5: a concrete successful `fixed_size` call (through the
stand-in splitter). -/
theorem c5_chunk_invariants_witness :
    (∀ i (hi : i < (([⟨"a b", ⟨1, some 1, some "1", [], 2⟩⟩] : List Chunk)).length),
        ((([⟨"a b", ⟨1, some 1, some "1", [], 2⟩⟩] : List Chunk)).get ⟨i, hi⟩).metadata.chunk_id
          = i + 1)
      ∧ (1 : Nat) = (([⟨"a b", ⟨1, some 1, some "1", [], 2⟩⟩] : List Chunk)).length
      ∧ ∀ c ∈ ([⟨"a b", ⟨1, some 1, some "1", [], 2⟩⟩] : List Chunk),
          c.metadata.word_count = pyWordCount c.content := by
  have h := c5_chunk_invariants exSplitters "x" "fixed_size" ⟨none, none⟩
    (some [⟨1, "a b"⟩]) 1000 200 "t"
    { filename := ""
      total_chunks := 1
      total_pages := 1
      loading_method := ""
      chunking_method := "fixed_size"
      chunk_size := 1000
      chunk_overlap := 200
      timestamp := "t"
      chunks := [⟨"a b", ⟨1, some 1, some "1", [], 2⟩⟩] } rfl
  exact h

/-! ## Claim C6 -/

/-- C6: `by_pages` chunking on a non-empty PageMap of length `k` yields
exactly `k` chunks in PageMap order, each with content identical to its
page's text, `page_number` the page's number and `page_range` that number
rendered as a string. -/
theorem c6_by_pages_chunking (sp : Splitters) (text : String) (meta : DocMeta)
    (pm : List PageData) (cs co : Int) (ts : String) (hpm : pm ≠ []) :
    ∃ doc, chunk_text sp text "by_pages" meta (some pm) cs co ts = .ok doc
      ∧ doc.chunks.length = pm.length
      ∧ ∀ i (h1 : i < doc.chunks.length) (h2 : i < pm.length),
          (doc.chunks.get ⟨i, h1⟩).content = (pm.get ⟨i, h2⟩).text
          ∧ (doc.chunks.get ⟨i, h1⟩).metadata.page_number = some (pm.get ⟨i, h2⟩).page
          ∧ (doc.chunks.get ⟨i, h1⟩).metadata.page_range
              = some (toString (pm.get ⟨i, h2⟩).page) := by
  have htr : pyTruthyPages (some pm) = true := by
    cases pm with
    | nil => exact absurd rfl hpm
    | cons p rest => rfl
  refine ⟨{ filename := meta.filename.getD ""
            total_chunks := (chunkByPages pm).length
            total_pages := pm.length
            loading_method := meta.loading_method.getD ""
            chunking_method := "by_pages"
            chunk_size := cs
            chunk_overlap := co
            timestamp := ts
            chunks := chunkByPages pm }, ?_, ?_, ?_⟩
  · unfold chunk_text
    rw [htr]
    rfl
  · show (chunkByPages pm).length = pm.length
    rw [chunkByPages_eq]
    exact pageChunksFrom_length pm 0
  · intro i h1 h2
    have h1' : i < (pageChunksFrom 0 pm).length := by
      rw [← chunkByPages_eq]
      exact h1
    have hg : (chunkByPages pm).get ⟨i, h1⟩ = (pageChunksFrom 0 pm).get ⟨i, h1'⟩ :=
      listGet_congr (chunkByPages_eq pm) i h1 h1'
    show ((chunkByPages pm).get ⟨i, h1⟩).content = (pm.get ⟨i, h2⟩).text ∧ _ ∧ _
    rw [hg, pageChunksFrom_get pm 0 i h1' h2]
    exact ⟨rfl, rfl, rfl⟩

/-- Witness for C6: a concrete two-page PageMap. -/
theorem c6_by_pages_chunking_witness :
    ∃ doc, chunk_text exSplitters "x" "by_pages" ⟨none, none⟩
        (some [⟨1, "p one"⟩, ⟨2, "p two"⟩]) 1000 200 "t" = .ok doc
      ∧ doc.chunks.length = ([⟨1, "p one"⟩, ⟨2, "p two"⟩] : List PageData).length
      ∧ ∀ i (h1 : i < doc.chunks.length)
          (h2 : i < ([⟨1, "p one"⟩, ⟨2, "p two"⟩] : List PageData).length),
          (doc.chunks.get ⟨i, h1⟩).content
              = (([⟨1, "p one"⟩, ⟨2, "p two"⟩] : List PageData).get ⟨i, h2⟩).text
          ∧ (doc.chunks.get ⟨i, h1⟩).metadata.page_number
              = some (([⟨1, "p one"⟩, ⟨2, "p two"⟩] : List PageData).get ⟨i, h2⟩).page
          ∧ (doc.chunks.get ⟨i, h1⟩).metadata.page_range
              = some (toString (([⟨1, "p one"⟩, ⟨2, "p two"⟩] : List PageData).get ⟨i, h2⟩).page) :=
  c6_by_pages_chunking exSplitters "x" ⟨none, none⟩ [⟨1, "p one"⟩, ⟨2, "p two"⟩]
    1000 200 "t" (by simp)

/-! ## Claim C9 -/

/-- C9 (amended): every chunk from the six page-based strategies carries
`page_number` and `page_range`; every chunk from the markdown strategy has
neither key in its metadata dict (it carries `chunk_id`, the header fields
and `word_count` only). -/
theorem c9_metadata_fields (sp : Splitters) (text method : String) (meta : DocMeta)
    (page_map : Option (List PageData)) (cs co : Int) (ts : String) (doc : ChunkedDocument)
    (h : chunk_text sp text method meta page_map cs co ts = .ok doc) :
    (method ≠ "markdown" → pagesOk doc.chunks)
      ∧ (method = "markdown" →
          ∀ c ∈ doc.chunks, c.metadata.page_number = none
            ∧ c.metadata.page_range = none) := by
  unfold chunk_text at h
  split_ifs at h
  all_goals
    cases hE : chunksFor sp text method (page_map.getD []) cs co with
    | error e => rw [hE] at h; simp at h
    | ok chunks =>
        rw [hE] at h
        simp only [Except.ok.injEq] at h
        rw [← h]
        constructor
        · intro hm
          show pagesOk chunks
          exact chunksFor_pages sp text method (page_map.getD []) cs co chunks hE hm
        · intro hm
          subst hm
          rw [chunksFor_markdown] at hE
          simp only [Except.ok.injEq] at hE
          show ∀ c ∈ chunks, c.metadata.page_number = none ∧ c.metadata.page_range = none
          rw [← hE]
          exact mdChunksFrom_pages_none (sp.markdown text) 0

/-- Witness for C9's amended statement: a concrete `fixed_size` call. -/
theorem c9_metadata_fields_witness :
    ("fixed_size" ≠ "markdown" →
        pagesOk ([⟨"a b", ⟨1, some 1, some "1", [], 2⟩⟩] : List Chunk))
      ∧ ("fixed_size" = "markdown" →
          ∀ c ∈ ([⟨"a b", ⟨1, some 1, some "1", [], 2⟩⟩] : List Chunk),
            c.metadata.page_number = none ∧ c.metadata.page_range = none) := by
  have h := c9_metadata_fields exSplitters "x" "fixed_size" ⟨none, none⟩
    (some [⟨1, "a b"⟩]) 1000 200 "t"
    { filename := ""
      total_chunks := 1
      total_pages := 1
      loading_method := ""
      chunking_method := "fixed_size"
      chunk_size := 1000
      chunk_overlap := 200
      timestamp := "t"
      chunks := [⟨"a b", ⟨1, some 1, some "1", [], 2⟩⟩] } rfl
  exact h

/-- Counterexample to C9 as stated: a chunk produced by the markdown
strategy of `chunk_text` whose metadata dict has no `page_number` and no
`page_range` key (the claim asserts every chunk carries both). -/
theorem c9_metadata_counterexample :
    (chunk_text exSplitters "x" "markdown" ⟨none, none⟩ none 1000 200 "t").toOption.map
        (fun d => d.chunks.map (fun c => (c.metadata.page_number, c.metadata.page_range)))
      = some [(none, none)] := by
  rfl

/-! ## Claim C10 -/

/-- C10: `chunk_text` treats an empty PageMap exactly like an absent one —
for every non-markdown method the page-map-required validation error is
raised — and every successful non-markdown call reports `total_pages ≥ 1`. -/
theorem c10_empty_page_map (sp : Splitters) (text method : String) (meta : DocMeta)
    (cs co : Int) (ts : String) :
    chunk_text sp text method meta (some []) cs co ts
        = chunk_text sp text method meta none cs co ts
      ∧ (method ≠ "markdown" →
          chunk_text sp text method meta (some []) cs co ts
            = .error "Page map is required for non-markdown chunking.")
      ∧ (∀ page_map doc, method ≠ "markdown" →
          chunk_text sp text method meta page_map cs co ts = .ok doc →
          1 ≤ doc.total_pages) := by
  refine ⟨rfl, ?_, ?_⟩
  · intro hm
    unfold chunk_text
    rw [if_pos]
    simp [pyTruthyPages, hm]
  · intro page_map doc hm hok
    unfold chunk_text at hok
    split_ifs at hok with hguard htr
    · cases hE : chunksFor sp text method (page_map.getD []) cs co with
      | error e => rw [hE] at hok; simp at hok
      | ok chunks =>
          rw [hE] at hok
          simp only [Except.ok.injEq] at hok
          rw [← hok]
          show 1 ≤ (page_map.getD []).length
          cases page_map with
          | none => simp [pyTruthyPages] at htr
          | some l =>
              cases l with
              | nil => simp [pyTruthyPages] at htr
              | cons p rest => simp
    · have hfalse : pyTruthyPages page_map = false := by
        revert htr
        cases pyTruthyPages page_map <;> simp
      exact absurd (by simp [hfalse, hm]) hguard

/-- Witness for C10: concrete instantiation at the `by_sentences` method. -/
theorem c10_empty_page_map_witness :
    chunk_text exSplitters "x" "by_sentences" ⟨none, none⟩ (some []) 1000 200 "t"
      = .error "Page map is required for non-markdown chunking." :=
  (c10_empty_page_map exSplitters "x" "by_sentences" ⟨none, none⟩ 1000 200 "t").2.1
    (by simp)

/-! ## Claim C4 -/

/-- C4 (amended): the page-based methods without a truthy PageMap fail fast
with the validation error; `text_and_tables` / `hi_res` without a truthy
file path — and any unknown method — fall back to `by_pages` whenever a
truthy PageMap is available and raise the validation error only when none
is. -/
theorem c4_parse_dispatch (pp up : String → List ParsedElement) (text method : String)
    (meta : DocMeta) (page_map : Option (List ParsePage)) (file_path : Option String)
    (ts : String) :
    ((method = "all_text" ∨ method = "by_pages" ∨ method = "by_titles") →
        pyTruthyParsePages page_map = false →
        parse_file pp up text method meta page_map file_path ts
          = .error ("Unsupported parsing method: " ++ method ++ " or missing required data."))
      ∧ ((method = "text_and_tables" ∨ method = "hi_res"
            ∨ (method ≠ "all_text" ∧ method ≠ "by_pages" ∧ method ≠ "by_titles"
               ∧ method ≠ "text_and_tables" ∧ method ≠ "hi_res")) →
          pyTruthyPath file_path = false →
          ((pyTruthyParsePages page_map = true →
              parse_file pp up text method meta page_map file_path ts
                = .ok { filename := meta.filename.getD ""
                        total_pages := (page_map.getD []).length
                        parsing_method := method
                        timestamp := ts
                        content := parseByPages (page_map.getD []) })
            ∧ (pyTruthyParsePages page_map = false →
                parse_file pp up text method meta page_map file_path ts
                  = .error ("Unsupported parsing method: " ++ method
                      ++ " or missing required data.")))) := by
  constructor
  · rintro (rfl | rfl | rfl) hpm <;>
      simp [parse_file, parseContentFor, hpm]
  · rintro (rfl | rfl | ⟨h1, h2, h3, h4, h5⟩) hfp
    · exact ⟨fun hpm => by simp [parse_file, parseContentFor, hpm, hfp],
        fun hpm => by simp [parse_file, parseContentFor, hpm, hfp]⟩
    · exact ⟨fun hpm => by simp [parse_file, parseContentFor, hpm, hfp],
        fun hpm => by simp [parse_file, parseContentFor, hpm, hfp]⟩
    · exact ⟨fun hpm => by simp [parse_file, parseContentFor, hpm, hfp, h1, h2, h3, h4, h5],
        fun hpm => by simp [parse_file, parseContentFor, hpm, hfp, h1, h2, h3, h4, h5]⟩

/-- Witness for C4's amended statement: `hi_res` with a PageMap and no file
path parses via the `by_pages` fallback. -/
theorem c4_parse_dispatch_witness :
    parse_file (fun _ => []) (fun _ => []) "t" "hi_res" ⟨none, none⟩
        (some [⟨2, "y", []⟩]) none "ts"
      = .ok { filename := "", total_pages := 1, parsing_method := "hi_res",
              timestamp := "ts", content := parseByPages [⟨2, "y", []⟩] } :=
  ((c4_parse_dispatch (fun _ => []) (fun _ => []) "t" "hi_res" ⟨none, none⟩
      (some [⟨2, "y", []⟩]) none "ts").2 (Or.inr (Or.inl rfl)) rfl).1 rfl

/-- Counterexample to C4 as stated: a `text_and_tables` call with no file
path but with a PageMap succeeds via the `by_pages` fallback instead of
failing fast with a validation error. -/
theorem c4_fallback_counterexample :
    parse_file (fun _ => []) (fun _ => []) "t" "text_and_tables" ⟨some "f.pdf", none⟩
        (some [⟨1, "x", []⟩]) none "ts"
      = .ok { filename := "f.pdf", total_pages := 1, parsing_method := "text_and_tables",
              timestamp := "ts", content := [⟨"Page", "x", 1, none, some []⟩] } := by
  rfl

/-! ## Claim C7 -/

theorem titleStep_eq (pageNum : Int) (st : TitleAcc) (line0 : String) :
    titleStep pageNum st line0
      = if pyStrip line0 = "" then st else titleSpecStep st (pageNum, pyStrip line0) := by
  rfl

theorem foldl_titleStep_lines (lines : List String) (pageNum : Int) : ∀ st : TitleAcc,
    lines.foldl (titleStep pageNum) st
      = ((lines.map pyStrip).filter (fun l => l ≠ "")).foldl
          (fun st l => titleSpecStep st (pageNum, l)) st := by
  induction lines with
  | nil => intro st; rfl
  | cons l0 rest ih =>
      intro st
      rw [List.foldl_cons, titleStep_eq]
      by_cases h0 : pyStrip l0 = ""
      · rw [if_pos h0]
        simp only [List.map_cons, h0, List.filter_cons]
        rw [if_neg (by decide)]
        exact ih st
      · rw [if_neg h0]
        simp only [List.map_cons, List.filter_cons]
        rw [if_pos (decide_eq_true h0), List.foldl_cons]
        exact ih _

theorem foldl_titleStep_pages (pm : List ParsePage) : ∀ st : TitleAcc,
    pm.foldl (fun st p => (pySplitSep p.text "\n").foldl (titleStep p.page) st) st
      = (titleLines pm).foldl titleSpecStep st := by
  induction pm with
  | nil => intro st; rfl
  | cons p rest ih =>
      intro st
      simp only [List.foldl_cons, titleLines, List.flatMap_cons, List.foldl_append]
      rw [ih, List.foldl_map, foldl_titleStep_lines]
      rfl

/-! ## Claim C1 -/

theorem stripPdfChars_of_not_contains (l : List Char) (h : containsPdf l = false) :
    stripPdfChars l = l := by
  induction l using stripPdfChars.induct with
  | case1 rest ih => simp [containsPdf] at h
  | case2 c rest hne ih =>
      rw [stripPdfChars]
      · rw [containsPdf] at h
        · rw [ih h]
        · exact hne
      · exact hne
  | case3 => rfl

theorem stripPdfChars_length_le (l : List Char) :
    (stripPdfChars l).length ≤ l.length := by
  induction l using stripPdfChars.induct with
  | case1 rest ih =>
      rw [stripPdfChars]
      simp only [List.length_cons]
      omega
  | case2 c rest hne ih =>
      rw [stripPdfChars]
      · simp only [List.length_cons]
        omega
      · exact hne
  | case3 => simp [stripPdfChars]

theorem stripPdfChars_length_lt (l : List Char) (h : containsPdf l = true) :
    (stripPdfChars l).length + 4 ≤ l.length := by
  induction l using stripPdfChars.induct with
  | case1 rest ih =>
      rw [stripPdfChars]
      have := stripPdfChars_length_le rest
      simp only [List.length_cons]
      omega
  | case2 c rest hne ih =>
      rw [containsPdf] at h
      · rw [stripPdfChars]
        · have := ih h
          simp only [List.length_cons]
          omega
        · exact hne
      · exact hne
  | case3 => simp [containsPdf] at h

/-- C1 (amended): step 1 of collection naming removes every left-to-right
non-overlapping occurrence of `.pdf` (Python `str.replace` semantics), not
only a trailing one — a non-empty filename with no `.pdf` occurrence passes
unchanged, a filename containing one always shrinks (by 4 characters per
occurrence), and an empty filename is replaced by `doc`. -/
theorem c1_step1_characterization (f : String) :
    (f = "" → baseNameStep1 f = "doc")
      ∧ (f ≠ "" → containsPdf f.data = false → baseNameStep1 f = f)
      ∧ (f ≠ "" → containsPdf f.data = true →
          (baseNameStep1 f).data.length + 4 ≤ f.data.length) := by
  refine ⟨fun h => by rw [baseNameStep1, if_pos h], fun h hc => ?_, fun h hc => ?_⟩
  · rw [baseNameStep1, if_neg h]
    unfold stripPdf
    rw [stripPdfChars_of_not_contains f.data hc]
  · rw [baseNameStep1, if_neg h]
    exact stripPdfChars_length_lt f.data hc

/-- Witness for C1's amended statement at two concrete filenames. -/
theorem c1_step1_characterization_witness :
    baseNameStep1 "abc" = "abc"
      ∧ (baseNameStep1 "x.pdf").data.length + 4 ≤ ("x.pdf" : String).data.length :=
  ⟨(c1_step1_characterization "abc").2.1 (by decide) (by decide),
   (c1_step1_characterization "x.pdf").2.2 (by decide) (by decide)⟩

/-- Counterexample to C1 as stated: `"x.pdfy"` does not end in `.pdf`, yet
step 1 (`filename.replace('.pdf', '')`) changes it — the interior `.pdf`
occurrence is removed, not preserved. -/
theorem c1_strip_pdf_counterexample :
    endsWithPdf "x.pdfy" = false ∧ baseNameStep1 "x.pdfy" = "xy"
      ∧ baseNameStep1 "x.pdfy" ≠ "x.pdfy" := by
  refine ⟨by decide, rfl, by decide⟩

/-! ## Claim C2 -/

theorem revDropWhile_decomposition (p : Char → Bool) (l : List Char) :
    ∃ t, l = ((l.reverse.dropWhile p).reverse) ++ t ∧ ∀ c ∈ t, p c := by
  refine ⟨(l.reverse.takeWhile p).reverse, ?_, ?_⟩
  · calc l = l.reverse.reverse := (List.reverse_reverse _).symm
      _ = ((l.reverse.takeWhile p) ++ (l.reverse.dropWhile p)).reverse := by
          rw [List.takeWhile_append_dropWhile]
      _ = (l.reverse.dropWhile p).reverse ++ (l.reverse.takeWhile p).reverse := by
          rw [List.reverse_append]
  · intro c hc
    rw [List.mem_reverse] at hc
    exact List.mem_takeWhile_imp hc

theorem head?_dropWhile_not (p : Char → Bool) (l : List Char) :
    ∀ c, (l.dropWhile p).head? = some c → p c = false := by
  induction l with
  | nil => intro c h; simp at h
  | cons a as ih =>
      intro c h
      by_cases hp : p a = true
      · rw [List.dropWhile_cons_of_pos hp] at h
        exact ih c h
      · rw [List.dropWhile_cons_of_neg hp] at h
        simp only [List.head?_cons, Option.some.injEq] at h
        subst h
        exact Bool.not_eq_true _ ▸ hp

theorem filter_prefix_spec (c0 : Char) (cs : List Char) :
    ∃ d ds, nameFilterStep (namePrefixStep (c0 :: cs)) = d :: ds
      ∧ pyIsAlnum d = true
      ∧ ∀ c ∈ d :: ds, isNameChar c = true := by
  by_cases h0 : pyIsAlnum c0 = true
  · refine ⟨c0, (cs.filter isNameChar), ?_, h0, ?_⟩
    · unfold nameFilterStep
      rw [namePrefixStep]
      rw [if_neg (by simp [h0])]
      rw [List.filter_cons_of_pos (by simp [isNameChar, h0])]
    · intro c hc
      rcases List.mem_cons.mp hc with h | h
      · rw [h]; simp [isNameChar, h0]
      · exact List.of_mem_filter h
  · refine ⟨'d', ('o' :: 'c' :: '_' :: c0 :: cs).filter isNameChar, ?_, by decide, ?_⟩
    · unfold nameFilterStep
      rw [namePrefixStep]
      rw [if_pos (by simp [h0])]
      rw [List.filter_cons_of_pos (by decide)]
    · intro c hc
      rcases List.mem_cons.mp hc with h | h
      · rw [h]; decide
      · exact List.of_mem_filter h

theorem padTruncate_spec (d : Char) (ds : List Char) (_hd : pyIsAlnum d = true)
    (hvalid : ∀ c ∈ d :: ds, isNameChar c = true) :
    ∃ es, namePadTruncate (d :: ds) = d :: es
      ∧ (∀ c ∈ d :: es, isNameChar c = true)
      ∧ (d :: es).length ≤ 63 := by
  unfold namePadTruncate
  by_cases h1 : (d :: ds).length < 3
  · rw [if_pos h1]
    rw [show ((d :: ds) ++ ['_', '_', '_']).take 63
        = d :: ((ds ++ ['_', '_', '_']).take 62) from rfl]
    refine ⟨(ds ++ ['_', '_', '_']).take 62, rfl, ?_, ?_⟩
    · intro c hc
      rcases List.mem_cons.mp hc with h | h
      · rw [h]; exact hvalid d (by simp)
      · rcases List.mem_append.mp (List.mem_of_mem_take h) with h2 | h2
        · exact hvalid c (by simp [h2])
        · have hc' : c = '_' := by simpa using h2
          rw [hc']; decide
    · simp only [List.length_cons, List.length_take]
      omega
  · rw [if_neg h1]
    by_cases h2 : (d :: ds).length > 63
    · rw [if_pos h2]
      rw [show (d :: ds).take 63 = d :: ds.take 62 from rfl]
      refine ⟨ds.take 62, rfl, ?_, ?_⟩
      · intro c hc
        rcases List.mem_cons.mp hc with h | h
        · rw [h]; exact hvalid d (by simp)
        · exact hvalid c (by simp [List.mem_of_mem_take h])
      · simp only [List.length_cons, List.length_take]
        omega
    · rw [if_neg h2]
      exact ⟨ds, rfl, hvalid, by omega⟩

theorem stripEnds_spec (d : Char) (es : List Char) (hd : pyIsAlnum d = true)
    (hvalid : ∀ c ∈ d :: es, isNameChar c = true) :
    ∃ fs, nameStripEnds (d :: es) = d :: fs
      ∧ (∀ c ∈ d :: fs, isNameChar c = true)
      ∧ lastAlnum (d :: fs) = true
      ∧ (d :: fs).length ≤ (d :: es).length := by
  obtain ⟨t, hdec, ht⟩ := revDropWhile_decomposition (fun c => !pyIsAlnum c) (d :: es)
  have hr : ((d :: es).reverse.dropWhile (fun c => !pyIsAlnum c)) ≠ [] := by
    intro hnil
    have hall := List.dropWhile_eq_nil_iff.mp hnil d (by simp)
    rw [hd] at hall
    simp at hall
  have hb6 : ((d :: es).reverse.dropWhile (fun c => !pyIsAlnum c)).reverse ≠ [] := by
    simpa using hr
  obtain ⟨b0, fs, hb6eq⟩ := List.exists_cons_of_ne_nil hb6
  rw [hb6eq] at hdec
  have hcons : d = b0 ∧ es = fs ++ t := by
    simpa [List.cons_append, List.cons.injEq] using hdec
  obtain ⟨hb0, hes⟩ := hcons
  rw [← hb0] at hb6eq
  rw [← hb0] at hdec
  refine ⟨fs, ?_, ?_, ?_, ?_⟩
  · unfold nameStripEnds
    rw [hb6eq, List.dropWhile_cons_of_neg (by simp [hd])]
  · intro c hc
    apply hvalid
    rw [hdec]
    exact List.mem_append_left _ hc
  · unfold lastAlnum
    rw [← hb6eq, List.getLast?_reverse]
    cases hh : ((d :: es).reverse.dropWhile (fun c => !pyIsAlnum c)).head? with
    | none =>
        rw [List.head?_eq_none_iff] at hh
        exact absurd hh hr
    | some c =>
        have hpc := head?_dropWhile_not (fun c => !pyIsAlnum c) (d :: es).reverse c hh
        simpa using hpc
  · have hlen : (d :: es).length = (d :: fs).length + t.length := by
      rw [hdec, List.length_append]
    omega

theorem finishBase_spec (base1 : String) (h : base1.data ≠ []) :
    ∃ b, finishBaseName base1 = some b
      ∧ b.data ≠ []
      ∧ firstAlnum b.data = true
      ∧ lastAlnum b.data = true
      ∧ (∀ c ∈ b.data, isNameChar c = true)
      ∧ b.data.length ≤ 63 := by
  cases hm : nameHyphenStep base1.data with
  | nil =>
      exfalso
      apply h
      have := congrArg List.length hm
      simp [nameHyphenStep] at this
      exact List.eq_nil_of_length_eq_zero this
  | cons c0 cs =>
      obtain ⟨d, ds, hfil, hd, hvalid⟩ := filter_prefix_spec c0 cs
      obtain ⟨es, hpad, hvalid2, hlen2⟩ := padTruncate_spec d ds hd hvalid
      obtain ⟨fs, hstrip, hvalid3, hlast3, hlen3⟩ :=
        stripEnds_spec d es hd hvalid2
      refine ⟨String.mk (nameStripEnds (namePadTruncate (nameFilterStep
        (namePrefixStep (c0 :: cs))))), ?_, ?_, ?_, ?_, ?_, ?_⟩
      · unfold finishBaseName
        rw [hm]
      · rw [show (String.mk (nameStripEnds (namePadTruncate (nameFilterStep
            (namePrefixStep (c0 :: cs)))))).data
            = nameStripEnds (namePadTruncate (nameFilterStep (namePrefixStep (c0 :: cs))))
            from rfl, hfil, hpad, hstrip]
        simp
      · rw [show (String.mk (nameStripEnds (namePadTruncate (nameFilterStep
            (namePrefixStep (c0 :: cs)))))).data
            = nameStripEnds (namePadTruncate (nameFilterStep (namePrefixStep (c0 :: cs))))
            from rfl, hfil, hpad, hstrip]
        simp [firstAlnum, hd]
      · rw [show (String.mk (nameStripEnds (namePadTruncate (nameFilterStep
            (namePrefixStep (c0 :: cs)))))).data
            = nameStripEnds (namePadTruncate (nameFilterStep (namePrefixStep (c0 :: cs))))
            from rfl, hfil, hpad, hstrip]
        exact hlast3
      · rw [show (String.mk (nameStripEnds (namePadTruncate (nameFilterStep
            (namePrefixStep (c0 :: cs)))))).data
            = nameStripEnds (namePadTruncate (nameFilterStep (namePrefixStep (c0 :: cs))))
            from rfl, hfil, hpad, hstrip]
        exact hvalid3
      · rw [show (String.mk (nameStripEnds (namePadTruncate (nameFilterStep
            (namePrefixStep (c0 :: cs)))))).data
            = nameStripEnds (namePadTruncate (nameFilterStep (namePrefixStep (c0 :: cs))))
            from rfl, hfil, hpad, hstrip]
        calc (d :: fs).length ≤ (d :: es).length := hlen3
          _ ≤ 63 := hlen2

theorem digit_isNameChar (c : Char) (h : c.isDigit = true) : isNameChar c = true := by
  simp [isNameChar, pyIsAlnum, Char.isAlphanum, h]

/-- C2 (amended): for every transliterated base name that is non-empty ASCII
text, every provider string over `[A-Za-z0-9_-]` and every non-empty digit
timestamp, the indexing call derives `some` collection name of the shape
`base_provider_timestamp`; the name starts and ends alphanumeric, contains
only `[A-Za-z0-9_-]`, and has length `len(base) + len(provider) +
len(timestamp) + 2` with `len(base) ≤ 63` — so the 63-character cap of the
claim fails whenever base and suffix together exceed it, and only the
pattern without the length cap holds in general. -/
theorem c2_collection_name_shape (translit : String → String)
    (filename provider ts : String)
    (hbase : (translit (baseNameStep1 filename)).data ≠ [])
    (_hascii : ∀ c ∈ (translit (baseNameStep1 filename)).data, c.toNat < 128)
    (hprov : ∀ c ∈ provider.data, isNameChar c = true)
    (hts : ts.data ≠ []) (htsd : ∀ c ∈ ts.data, c.isDigit = true) :
    ∃ base name,
      finishBaseName (translit (baseNameStep1 filename)) = some base
      ∧ deriveCollectionName translit filename provider ts = some name
      ∧ name = base ++ "_" ++ provider ++ "_" ++ ts
      ∧ base.data.length ≤ 63
      ∧ matchesNamePatternNoCap name
      ∧ name.data.length
          = base.data.length + provider.data.length + ts.data.length + 2 := by
  obtain ⟨base, hsome, hne, hfirst, hlast, hvalid, hlen⟩ := finishBase_spec _ hbase
  have hdata : (base ++ "_" ++ provider ++ "_" ++ ts).data
      = base.data ++ '_' :: (provider.data ++ '_' :: ts.data) := by
    show base.data ++ ['_'] ++ provider.data ++ ['_'] ++ ts.data = _
    simp
  refine ⟨base, base ++ "_" ++ provider ++ "_" ++ ts, hsome, ?_, rfl, hlen, ?_, ?_⟩
  · unfold deriveCollectionName
    rw [hsome]
    rfl
  · obtain ⟨b, bs, hbcons⟩ := List.exists_cons_of_ne_nil hne
    obtain ⟨tl, htl⟩ : ∃ c, ts.data.getLast? = some c := by
      cases hl : ts.data.getLast? with
      | none => rw [List.getLast?_eq_none_iff] at hl; exact absurd hl hts
      | some c => exact ⟨c, rfl⟩
    refine ⟨?_, ?_, ?_, ?_⟩
    · rw [hdata]
      simp only [List.length_append, List.length_cons]
      have h1 : 1 ≤ base.data.length := by
        rw [hbcons]; simp
      have h2 : 1 ≤ ts.data.length := List.length_pos.mpr hts
      omega
    · intro c hc
      rw [hdata] at hc
      rcases List.mem_append.mp hc with h | h
      · exact hvalid c h
      · rcases List.mem_cons.mp h with h | h
        · rw [h]; decide
        · rcases List.mem_append.mp h with h | h
          · exact hprov c h
          · rcases List.mem_cons.mp h with h | h
            · rw [h]; decide
            · exact digit_isNameChar c (htsd c h)
    · unfold firstAlnum
      rw [hdata, hbcons, List.cons_append, List.head?_cons]
      unfold firstAlnum at hfirst
      rw [hbcons, List.head?_cons] at hfirst
      exact hfirst
    · unfold lastAlnum
      rw [hdata]
      rw [show base.data ++ '_' :: (provider.data ++ '_' :: ts.data)
          = (base.data ++ '_' :: provider.data ++ ['_']) ++ ts.data by simp]
      rw [List.getLast?_append_of_ne_nil _ hts, htl]
      exact (by simp [pyIsAlnum, Char.isAlphanum, htsd tl (List.mem_of_mem_getLast? htl)]
        : pyIsAlnum tl = true)
  · rw [hdata]
    simp only [List.length_append, List.length_cons]
    omega

/-- Witness for C2's amended statement at a concrete indexing call
(`pypinyin` transliterates ASCII text to itself, so `id` is the
transliteration on this input). -/
theorem c2_collection_name_shape_witness :
    ∃ base name,
      finishBaseName (id (baseNameStep1 "report.pdf")) = some base
      ∧ deriveCollectionName id "report.pdf" "openai" "20250101000000" = some name
      ∧ name = base ++ "_" ++ "openai" ++ "_" ++ "20250101000000"
      ∧ base.data.length ≤ 63
      ∧ matchesNamePatternNoCap name
      ∧ name.data.length
          = base.data.length + ("openai" : String).data.length
            + ("20250101000000" : String).data.length + 2 :=
  c2_collection_name_shape id "report.pdf" "openai" "20250101000000"
    (by decide) (by decide) (by decide) (by decide) (by decide)

/-- Counterexample to C2 as stated: a 70-character ASCII filename yields a
collection name of length 85 — the `_{provider}_{timestamp}` suffix is
appended after the 63-character truncation, so the full name violates both
the 63-character cap and the quantified pattern. -/
theorem c2_collection_name_counterexample :
    deriveCollectionName id longAName "openai" "20250101000000"
        = some (String.mk (List.replicate 63 'a') ++ "_openai_20250101000000")
      ∧ (String.mk (List.replicate 63 'a') ++ "_openai_20250101000000").data.length = 85
      ∧ ¬ matchesNamePattern
          (String.mk (List.replicate 63 'a') ++ "_openai_20250101000000") := by
  refine ⟨by decide, by decide, ?_⟩
  intro ⟨_, hcap, _⟩
  revert hcap
  decide

/-! ## Claim C3 -/

/-- C3 (amended): a file whose JSON lacks `vector_dimension` is not
rejected before store interaction. For Milvus, the connection is opened
first and only then does `int(embeddings_data.get("vector_dimension"))`
raise (a `TypeError`), before any collection is created or data inserted;
for Chroma the key is never read — indexing proceeds normally, sizing the
vector field from the first record's embedding, and fails only when there
is no first record or its vector is empty. -/
theorem c3_missing_dim_behavior (translit : String → String) (data : EmbeddingsData)
    (ts : String) (base : String)
    (hdim : data.vector_dimension = none)
    (hname : deriveCollectionName translit (data.filename.getD "")
        (data.embedding_provider.getD "unknown") ts = some base) :
    indexToMilvus translit data ts
        = ([.connect, .disconnect],
           .error "TypeError: int() argument must not be NoneType")
      ∧ ∀ v rest, data.embeddings = v :: rest → v ≠ [] →
          indexToChroma translit data ts
            = ([.chromaInit base, .addTexts data.embeddings.length, .persist],
               .ok ⟨data.embeddings.length, base⟩) := by
  constructor
  · unfold indexToMilvus
    rw [hname, hdim]
  · intro v rest he hv
    unfold indexToChroma
    rw [hname, he]
    show (if (v.length = 0) then
        (([] : List StoreEvent),
         (.error "No embeddings found or embeddings have zero dimension"
           : Except String IndexResult))
      else
        ([StoreEvent.chromaInit base, StoreEvent.addTexts (v :: rest).length,
          StoreEvent.persist],
         .ok ⟨(v :: rest).length, base⟩)) = _
    rw [if_neg (by simpa [List.length_eq_zero] using hv : ¬(v.length = 0))]

/-- Witness for C3's amended statement at a concrete embedding file. -/
theorem c3_missing_dim_behavior_witness :
    indexToMilvus id exNoDimData "20250101000000"
        = ([.connect, .disconnect],
           .error "TypeError: int() argument must not be NoneType")
      ∧ indexToChroma id exNoDimData "20250101000000"
          = ([.chromaInit "report_openai_20250101000000",
              .addTexts exNoDimData.embeddings.length, .persist],
             .ok ⟨exNoDimData.embeddings.length, "report_openai_20250101000000"⟩) := by
  have h := c3_missing_dim_behavior id exNoDimData "20250101000000"
    "report_openai_20250101000000" rfl (by rfl)
  exact ⟨h.1, h.2 [1, 2] [] rfl (by decide)⟩

/-- Counterexample to C3 as stated: on a file with no `vector_dimension`
key, the Chroma indexer raises no format error at all — it creates the
collection and writes the batch — and the Milvus indexer opens its store
connection before failing. -/
theorem c3_missing_dim_counterexample :
    exNoDimData.vector_dimension = none
      ∧ indexToChroma id exNoDimData "20250101000000"
          = ([.chromaInit "report_openai_20250101000000", .addTexts 1, .persist],
             .ok ⟨1, "report_openai_20250101000000"⟩)
      ∧ (indexToMilvus id exNoDimData "20250101000000").1.head? = some .connect := by
  exact ⟨rfl, rfl, rfl⟩

/-! ## Claim C8 -/

theorem processGen_eq (gen : List GenItem) :
    processGen gen
      = (expectedTexts gen).map StreamEvent.text ++
          (match firstFail gen with
           | some m => [StreamEvent.error m]
           | none => []) := by
  induction gen with
  | nil => rfl
  | cons g rest ih =>
      cases g with
      | chunk c =>
          cases c with
          | none => simpa [processGen, expectedTexts, firstFail, pyTruthyStr] using ih
          | some s =>
              by_cases hs : s = ""
              · simp only [processGen, pyTruthyStr, hs]
                simpa [processGen, expectedTexts, firstFail, pyTruthyStr] using ih
              · simp only [processGen, pyTruthyStr]
                rw [if_pos (by simp [hs])]
                simp only [expectedTexts, firstFail, List.takeWhile_cons] at ih ⊢
                simp [hs, ih]
      | fail m => simp [processGen, expectedTexts, firstFail, List.takeWhile_cons]

theorem filter_isData_texts (l : List String) :
    (l.map StreamEvent.text).filter isDataEvent = [] := by
  induction l with
  | nil => rfl
  | cons s rest ih => simp [isDataEvent, ih]

theorem filter_isError_texts (l : List String) :
    (l.map StreamEvent.text).filter isErrorEvent = [] := by
  induction l with
  | nil => rfl
  | cons s rest ih => simp [isErrorEvent, ih]

theorem filterMap_textOf_texts (l : List String) :
    (l.map StreamEvent.text).filterMap textOf = l := by
  induction l with
  | nil => rfl
  | cons s rest ih => simpa [textOf] using ih

/-- C8 (amended): whenever an API key resolves (argument or environment,
by Python truthiness), the emitted sequence is exactly one `DATA` event
carrying the full candidate list, strictly first, followed by the truthy
generated fragments that arrive before the first failure, in arrival
order, and — only if a failure occurs — one final `ERROR` event closing
the sequence without retracting earlier fragments. When no key resolves,
the generation body never runs and the single `ERROR` event is emitted
with no preceding `DATA` event (refuting the claim's "exactly one DATA
event" for those calls). -/
theorem c8_stream_protocol (api envKey : Option String) (candidates : List Candidate)
    (gen : List GenItem)
    (hkey : pyTruthyStr api = true ∨ pyTruthyStr envKey = true) :
    searchAndExplainStream api envKey candidates gen
        = .data candidates ::
            ((expectedTexts gen).map StreamEvent.text ++
              (match firstFail gen with
               | some m => [StreamEvent.error m]
               | none => []))
      ∧ (searchAndExplainStream api envKey candidates gen).head?
          = some (.data candidates)
      ∧ (searchAndExplainStream api envKey candidates gen).filter isDataEvent
          = [.data candidates]
      ∧ (searchAndExplainStream api envKey candidates gen).filterMap textOf
          = expectedTexts gen
      ∧ (match firstFail gen with
         | some m =>
             (searchAndExplainStream api envKey candidates gen).getLast?
                 = some (.error m)
               ∧ (searchAndExplainStream api envKey candidates gen).filter isErrorEvent
                   = [.error m]
         | none =>
             (searchAndExplainStream api envKey candidates gen).filter isErrorEvent
               = []) := by
  have hstream : searchAndExplainStream api envKey candidates gen
      = .data candidates :: processGen gen := by
    unfold searchAndExplainStream
    rcases hkey with h | h <;> rw [if_neg (by simp [h])]
  rw [hstream, processGen_eq]
  refine ⟨rfl, rfl, ?_, ?_, ?_⟩
  · rw [List.filter_cons_of_pos (by rfl), List.filter_append,
      filter_isData_texts]
    cases hf : firstFail gen with
    | some m => simp [isDataEvent]
    | none => simp
  · rw [List.filterMap_cons]
    simp only [textOf]
    rw [List.filterMap_append, filterMap_textOf_texts]
    cases hf : firstFail gen with
    | some m => simp [textOf]
    | none => simp
  · cases hf : firstFail gen with
    | some m =>
        constructor
        · rw [show (StreamEvent.data candidates ::
              ((expectedTexts gen).map StreamEvent.text ++ [StreamEvent.error m]))
              = (StreamEvent.data candidates :: (expectedTexts gen).map StreamEvent.text)
                  ++ [StreamEvent.error m] by simp]
          rw [List.getLast?_append_of_ne_nil _ (by simp)]
          rfl
        · rw [List.filter_cons_of_neg (by simp [isErrorEvent]), List.filter_append,
            filter_isError_texts]
          simp [isErrorEvent]
    | none =>
        rw [List.filter_cons_of_neg (by simp [isErrorEvent]), List.filter_append,
          filter_isError_texts]
        simp

/-- Witness for C8's amended statement: one fragment then a failure. -/
theorem c8_stream_protocol_witness :
    (searchAndExplainStream (some "k") none []
        [GenItem.chunk (some "hello"), GenItem.fail "boom"]).head?
      = some (.data []) :=
  (c8_stream_protocol (some "k") none []
    [GenItem.chunk (some "hello"), GenItem.fail "boom"] (Or.inl (by decide))).2.1

/-- Counterexample to C8 as stated: a streamed call with no resolvable API
key emits only the single `ERROR` event — the sequence contains no `DATA`
event at all, though the claim requires exactly one in every streamed
call. -/
theorem c8_stream_counterexample :
    searchAndExplainStream none none [] []
        = [.error "DeepSeek API key not provided"]
      ∧ (searchAndExplainStream none none [] []).filter isDataEvent = [] := by
  exact ⟨rfl, rfl⟩

/-- C7: `by_titles` parsing is exactly the single pass over the stripped
non-empty lines of each page described by the spec — title test
`len < 100 ∧ (isupper ∨ leading digit)`, previous section emitted only when
it has body lines, trailing body flushed with the last page's number. -/
theorem c7_by_titles_single_pass (pm : List ParsePage) :
    parseByTitles pm = parseByTitlesSpec pm := by
  unfold parseByTitles parseByTitlesSpec
  rw [foldl_titleStep_pages]
